import Mathlib

/-!
Verification of the two-party GMW engine (circuit parser, party protocol
engine, multiplication triples) against its natural-language specification.

The Rust source is shallowly embedded: pure functions become Lean functions,
the two lockstep party engines become a joint step function over both wire
tables (the channels are synchronous rendezvous, so the lockstep product of
the two deterministic engines is the faithful model of a completed run),
randomness (input masks, triples) becomes explicit parameters, and Rust
panics (index out of bounds, `Option::unwrap` on `None`, `parse().unwrap()`)
become a distinguished `panic` outcome, kept separate from the typed errors
the code returns as `Result::Err`.
-/

/-! ## Circuit data model (src/circuit/circuit_parser.rs) -/

/-- Mirrors `enum GateType { XOR(usize, usize), AND(usize, usize), INV(usize) }`. -/
inductive GateType where
  | XOR : Nat → Nat → GateType
  | AND : Nat → Nat → GateType
  | INV : Nat → GateType
deriving DecidableEq, Repr

/-- Mirrors `struct Gate { gate_type: GateType, output: usize }`. -/
structure Gate where
  gate_type : GateType
  output : Nat
deriving DecidableEq, Repr

/-- Mirrors `struct Header { gates_amount, wires_amount: usize, niv, nov: Vec<usize> }`. -/
structure Header where
  gates_amount : Nat
  wires_amount : Nat
  niv : List Nat
  nov : List Nat
deriving DecidableEq, Repr

/-- Mirrors `struct Circuit { header: Header, gates: Vec<Gate> }`. -/
structure Circuit where
  header : Header
  gates : List Gate
deriving DecidableEq, Repr

/-- Mirrors `Circuit::get_nov_sum`: `self.header.nov.iter().sum()`. -/
def Circuit.get_nov_sum (c : Circuit) : Nat := c.header.nov.sum

/-- Mirrors `Circuit::get_output_wires`: `self.header.wires_amount - self.get_nov_sum()`
(usize subtraction; `Nat` subtraction is likewise truncated, and the Rust code
would panic on underflow only in debug builds — the claims never hit that case). -/
def Circuit.get_output_wires (c : Circuit) : Nat :=
  c.header.wires_amount - c.get_nov_sum

/-! ## Multiplication triples (src/mul_triple.rs) -/

/-- Mirrors `struct MulTriple { a: bool, b: bool, c: bool }`, one party's local
share of a multiplication triple. -/
structure MulTriple where
  a : Bool
  b : Bool
  c : Bool
deriving DecidableEq, Repr

/-- The cross-party triple invariant from the spec and the `MulTriple` doc
comment: the XOR-combined values satisfy `c = a & b`. -/
def triple_valid (p : MulTriple × MulTriple) : Prop :=
  (p.1.c ^^ p.2.c) = ((p.1.a ^^ p.2.a) && (p.1.b ^^ p.2.b))

instance (p : MulTriple × MulTriple) : Decidable (triple_valid p) := by
  unfold triple_valid; infer_instance

/-! ## Messages and execution errors (src/party/party_gmw.rs, src/party/errors.rs) -/

/-- Mirrors `enum Messages { Result(Vec<bool>), And { s_i, s_j }, Shares { shares } }`. -/
inductive Messages where
  | Result : List Bool → Messages
  | And : Bool → Bool → Messages
  | Shares : List Bool → Messages
deriving DecidableEq, Repr

/-- Execution outcome classification: `wireNotSet w` mirrors the typed
`PartyError::WireNotSetError(w)`; `panic` models a Rust panic (slice index out
of bounds, or `Option::unwrap` on `None`), which is *not* a `PartyError`. -/
inductive ExecError where
  | panic : ExecError
  | wireNotSet : Nat → ExecError
deriving DecidableEq, Repr

/-! ## The party engine, embedded as a lockstep joint execution -/

/-- Mirrors `generate_shares`: the random mask becomes the explicit `mask`
parameter; `public` (the peer share) is the mask, `private` (the local share)
is `input XOR mask` bitwise. -/
def generate_shares (input mask : List Bool) : List Bool × List Bool :=
  (List.zipWith (fun v m => Bool.xor v m) input mask, mask)

/-- Mirrors `Party::get_wire_value`: `wires[w]` panics when `w` is out of
bounds, an in-bounds `None` is the typed `WireNotSetError(w)`. -/
def get_wire_value (wires : List (Option Bool)) (w : Nat) : Except ExecError Bool :=
  match wires.get? w with
  | none => .error .panic
  | some none => .error (.wireNotSet w)
  | some (some v) => .ok v

/-- Mirrors `wires[output_index] = Some(v)`: an out-of-bounds index panics. -/
def set_wire (wires : List (Option Bool)) (i : Nat) (v : Option Bool) :
    Except ExecError (List (Option Bool)) :=
  if i < wires.length then .ok (wires.set i v) else .error .panic

/-- Mirrors the input-share loop `for (i, &wire) in share.iter().enumerate()
{ wires[i] = Some(wire) }`, writing successive indices from `i` upward and
panicking at the first out-of-bounds write. -/
def write_shares : List (Option Bool) → Nat → List Bool → Except ExecError (List (Option Bool))
  | w, _, [] => .ok w
  | w, i, b :: bs => do
    let w1 ← set_wire w i (some b)
    write_shares w1 (i + 1) bs

/-- The `Messages::And` payload a party sends in `Party::evaluate_and`:
`(x ^ a, y ^ b)` for its triple `(a, b, c)`. -/
def and_message (t : MulTriple) (x y : Bool) : Bool × Bool :=
  (x ^^ t.a, y ^^ t.b)

/-- Mirrors the local computation of `Party::evaluate_and` once the peer's
masked pair `peer` has been received: reconstruct `s_i`, `s_j` and apply the
role formula — the `is_p1 == false` party adds the extra `s_i & s_j` term. -/
def evaluate_and (is_p1 : Bool) (t : MulTriple) (x y : Bool) (peer : Bool × Bool) : Bool :=
  let s_i := (x ^^ t.a) ^^ peer.1
  let s_j := (y ^^ t.b) ^^ peer.2
  if is_p1 then
    ((s_i && t.b) ^^ (s_j && t.a)) ^^ t.c
  else
    (((s_i && t.b) ^^ (s_j && t.a)) ^^ t.c) ^^ (s_i && s_j)

/-- Both parties' AND-gate evaluation in lockstep: each sends its
`and_message` and evaluates with the peer's. Component 1 is party 0
(`is_p1 = false`), component 2 is party 1 (`is_p1 = true`). -/
def evaluate_and_pair (t0 t1 : MulTriple) (x0 y0 x1 y1 : Bool) : Bool × Bool :=
  (evaluate_and false t0 x0 y0 (and_message t1 x1 y1),
   evaluate_and true t1 x1 y1 (and_message t0 x0 y0))

/-- Joint state of the two lockstep engines: party 0's and party 1's wire
tables, the number of triples consumed, and the rendezvous trace (pairs of
messages: sent by party 0, sent by party 1). -/
structure ExecState where
  w0 : List (Option Bool)
  w1 : List (Option Bool)
  used : Nat
  trace : List (Messages × Messages)
deriving Repr

/-- One gate of the `for Gate { gate_type, output } in &circuit.gates` loop of
`Party::execute`, run jointly for both parties. `ts` supplies the two parties'
triple shares for each AND rendezvous in order. INV: the `is_p1` party writes
the negation, the other copies; no message. XOR: both local; no message. AND:
both run `evaluate_and`, exchanging one `Messages::And` pair. -/
def gmw_step (ts : Nat → MulTriple × MulTriple) (st : ExecState) (g : Gate) :
    Except ExecError ExecState :=
  match g.gate_type with
  | .INV a => do
    let v0 ← get_wire_value st.w0 a
    let v1 ← get_wire_value st.w1 a
    let w0 ← set_wire st.w0 g.output (some v0)
    let w1 ← set_wire st.w1 g.output (some (!v1))
    pure ⟨w0, w1, st.used, st.trace⟩
  | .XOR a b => do
    let x0 ← get_wire_value st.w0 a
    let y0 ← get_wire_value st.w0 b
    let x1 ← get_wire_value st.w1 a
    let y1 ← get_wire_value st.w1 b
    let w0 ← set_wire st.w0 g.output (some (x0 ^^ y0))
    let w1 ← set_wire st.w1 g.output (some (x1 ^^ y1))
    pure ⟨w0, w1, st.used, st.trace⟩
  | .AND a b => do
    let x0 ← get_wire_value st.w0 a
    let y0 ← get_wire_value st.w0 b
    let x1 ← get_wire_value st.w1 a
    let y1 ← get_wire_value st.w1 b
    let t := ts st.used
    let m0 := and_message t.1 x0 y0
    let m1 := and_message t.2 x1 y1
    let w0 ← set_wire st.w0 g.output (some (evaluate_and false t.1 x0 y0 m1))
    let w1 ← set_wire st.w1 g.output (some (evaluate_and true t.2 x1 y1 m0))
    pure ⟨w0, w1, st.used + 1,
      st.trace ++ [(Messages.And m0.1 m0.2, Messages.And m1.1 m1.2)]⟩

/-- Mirrors `wires.into_iter().skip(offset).map(Option::unwrap).collect()`:
an unset wire in the tail is a *panic* (`Option::unwrap`), not a typed error. -/
def unwrap_all : List (Option Bool) → Except ExecError (List Bool)
  | [] => .ok []
  | none :: _ => .error .panic
  | some v :: rest => do
    let vs ← unwrap_all rest
    pure (v :: vs)

/-- Phase C extraction: the local output share vector is the tail of the wire
table from `offset`, each entry unwrapped. -/
def extract_output (wires : List (Option Bool)) (offset : Nat) : Except ExecError (List Bool) :=
  unwrap_all (wires.drop offset)

/-- Mirrors `sol1.iter().zip(sol2.iter()).map(|(x, y)| x ^ y).collect()`. -/
def reconcile (mine theirs : List Bool) : List Bool :=
  List.zipWith (fun u v => Bool.xor u v) mine theirs

/-- Phase A for both engines: party 0 holds input `x` with mask `m0`, party 1
holds `y` with mask `m1`. Each sends its mask (`Messages::Shares`) and builds
its table: party 1 (`is_p1`) puts its private share first then the received
shares, party 0 puts the received shares first then its private share —
mirroring the `extend_from_slice` branch of `Party::execute`. -/
def phase_a (n : Nat) (x y m0 m1 : List Bool) :
    Except ExecError (List (Option Bool) × List (Option Bool) × (Messages × Messages)) := do
  let p0 := generate_shares x m0
  let p1 := generate_shares y m1
  let share0 := p1.2 ++ p0.1
  let share1 := p1.1 ++ p0.2
  let w0 ← write_shares (List.replicate n none) 0 share0
  let w1 ← write_shares (List.replicate n none) 0 share1
  pure (w0, w1, (Messages.Shares p0.2, Messages.Shares p1.2))

/-- The whole of `Party::execute`, run jointly to completion for both engines:
Phase A input sharing, Phase B gate loop, Phase C output extraction and
reconciliation. Returns the pair of reconstructed output vectors
(party 0's return value, party 1's return value). -/
def gmw_execute (c : Circuit) (x y m0 m1 : List Bool)
    (ts : Nat → MulTriple × MulTriple) : Except ExecError (List Bool × List Bool) := do
  let a ← phase_a c.header.wires_amount x y m0 m1
  let st ← c.gates.foldlM (gmw_step ts) ⟨a.1, a.2.1, 0, [a.2.2]⟩
  let sol0 ← extract_output st.w0 c.get_output_wires
  let sol1 ← extract_output st.w1 c.get_output_wires
  pure (reconcile sol0 sol1, reconcile sol1 sol0)

/-! ## The circuit parser (src/circuit/circuit_parser.rs, src/circuit/circuit_error.rs) -/

/-- Mirrors `enum CircuitError` of src/circuit/circuit_error.rs. -/
inductive CircuitError where
  | ParsingError : String → CircuitError
  | ParsingHeaderInformationError : Nat → Nat → CircuitError
  | ParsingNovError : Nat → Nat → CircuitError
  | ParsingNivError : Nat → Nat → CircuitError
  | EmptyLineMissingError : CircuitError
  | NotAGateError : String → CircuitError
  | WrongGateAmount : Nat → Nat → CircuitError
deriving DecidableEq, Repr

/-- Outcome of a fallible Rust computation, distinguishing a returned
`Err` value from a panic (`unwrap` on a failed parse, index out of bounds). -/
inductive RustResult (ε α : Type) where
  | ok : α → RustResult ε α
  | err : ε → RustResult ε α
  | panic : RustResult ε α
deriving DecidableEq, Repr

instance : Monad (RustResult ε) where
  pure := .ok
  bind m f := match m with
    | .ok a => f a
    | .err e => .err e
    | .panic => .panic

/-- Splits a character list at newline characters, keeping every segment
(including empty ones); the segment after the final newline is kept even when
empty, to be trimmed by `rust_lines`. -/
def split_nl : List Char → List (List Char)
  | [] => [[]]
  | c :: cs =>
    if c = '\n' then [] :: split_nl cs
    else
      match split_nl cs with
      | s :: rest => (c :: s) :: rest
      | [] => [[c]]

/-- Drops one trailing carriage return, for a segment that was terminated by a
newline (Rust `str::lines` splits at `\n` or `\r\n`). -/
def strip_cr (l : List Char) : List Char :=
  if l.getLast? = some '\r' then l.dropLast else l

/-- Processes the segments of `split_nl` the way Rust `str::lines` does:
every segment but the last was newline-terminated, so its trailing `\r` (if
any) is removed; the final segment is dropped when empty (optional final line
ending) and kept verbatim otherwise. -/
def rust_lines_core : List (List Char) → List (List Char)
  | [] => []
  | [last] => if last = [] then [] else [last]
  | seg :: rest => strip_cr seg :: rust_lines_core rest

/-- Mirrors Rust `str::lines().collect::<Vec<_>>()`. -/
def rust_lines (s : List Char) : List (List Char) :=
  rust_lines_core (split_nl s)

/-- Mirrors Rust `str::split_whitespace`: maximal runs of non-whitespace
characters, empty substrings discarded. `acc` holds the current token
reversed. -/
def split_ws_core : List Char → List Char → List (List Char)
  | [], acc => if acc = [] then [] else [acc.reverse]
  | c :: cs, acc =>
    if c.isWhitespace then
      if acc = [] then split_ws_core cs []
      else acc.reverse :: split_ws_core cs []
    else split_ws_core cs (c :: acc)

/-- Mirrors Rust `str::split_whitespace().collect::<Vec<_>>()`. -/
def split_ws (l : List Char) : List (List Char) :=
  split_ws_core l []

/-- Digit accumulator for `parse_usize`; `acc = none` until the first digit
has been seen, so that an empty digit string fails. -/
def parse_usize_core : List Char → Option Nat → Option Nat
  | [], acc => acc
  | c :: cs, acc =>
    if c.isDigit then parse_usize_core cs (some ((acc.getD 0) * 10 + (c.toNat - 48)))
    else none

/-- Mirrors Rust `str::parse::<usize>()`: an optional leading `+`, then one or
more decimal digits and nothing else. (The `usize` overflow bound is not
modelled; every claim stays far below it.) -/
def parse_usize (l : List Char) : Option Nat :=
  match l with
  | '+' :: rest => parse_usize_core rest none
  | _ => parse_usize_core l none

/-- Mirrors Rust `str::get(0..1)`: the first byte of the string as a slice —
`None` when the string is empty or its first character is not a single byte
(the range `0..1` then misses a character boundary). -/
def first_byte_slice (l : List Char) : Option (List Char) :=
  match l with
  | [] => none
  | c :: _ => if c.toNat < 128 then some [c] else none

/-- Mirrors `get_expected_line_length_header(lines, l)`: parse *only the first
byte* of line `l` as the declared count. Call sites guarantee `l < lines.length`
(the parser has already checked there are at least 5 lines), so the Rust
indexing `lines[l]` cannot panic there and `getD` is faithful. -/
def get_expected_line_length_header (lines : List (List Char)) (l : Nat) :
    Except CircuitError Nat :=
  match first_byte_slice (lines.getD l []) with
  | some v =>
    match parse_usize v with
    | some count => .ok count
    | none => .error (.ParsingError ("Something went wrong whilst parsing line " ++ toString l))
  | none => .error (.ParsingError ("Something went wrong whilst parsing line " ++ toString l))

/-- Mirrors `s.parse::<usize>().unwrap()` applied to every token of a line
(`split_whitespace().map(|s| s.parse().unwrap()).collect()`): any
non-numeric token panics. -/
def parse_all_usize (tokens : List (List Char)) : RustResult CircuitError (List Nat) :=
  match tokens with
  | [] => .ok []
  | t :: rest =>
    match parse_usize t with
    | none => .panic
    | some n => do
      let ns ← parse_all_usize rest
      pure (n :: ns)

/-- Mirrors `gate_info[i]`: out-of-bounds indexing panics. -/
def index_token (tokens : List (List Char)) (i : Nat) : RustResult CircuitError (List Char) :=
  match tokens.get? i with
  | none => .panic
  | some t => .ok t

/-- Mirrors `gate_info[i].parse::<usize>().unwrap()`. -/
def index_parse (tokens : List (List Char)) (i : Nat) : RustResult CircuitError Nat := do
  let t ← index_token tokens i
  match parse_usize t with
  | none => .panic
  | some n => pure n

/-- Mirrors the gate-line body of the `for line in lines[4..]` loop of
`Circuit::parse`, in the source's evaluation order: `gate_info[0]` and
`gate_info[1]` parsed with `unwrap`, the keyword looked up at index
`input_amount + output_amount + 2`, the gate inputs parsed, then the
`output_index` arity check, then the output wire parsed. -/
def parse_gate_line (line : List Char) : RustResult CircuitError Gate := do
  let gate_info := split_ws line
  let input_amount ← index_parse gate_info 0
  let output_amount ← index_parse gate_info 1
  let kw ← index_token gate_info (input_amount + output_amount + 2)
  let gate_type ←
    if kw = ['X', 'O', 'R'] then do
      let i1 ← index_parse gate_info 2
      let i2 ← index_parse gate_info 3
      pure (GateType.XOR i1 i2)
    else if kw = ['A', 'N', 'D'] then do
      let i1 ← index_parse gate_info 2
      let i2 ← index_parse gate_info 3
      pure (GateType.AND i1 i2)
    else if kw = ['I', 'N', 'V'] then do
      let i1 ← index_parse gate_info 2
      pure (GateType.INV i1)
    else
      RustResult.err (CircuitError.NotAGateError (String.mk kw))
  let output_index ←
    if input_amount = 2 then pure 4
    else if input_amount = 1 then pure 3
    else RustResult.err (CircuitError.ParsingError "Something went wrong whilst parsing a gate")
  let output ← index_parse gate_info output_index
  pure { gate_type, output }

/-- The `for line in lines[4..]` loop: every remaining line (blank ones
included) is parsed as a gate, stopping at the first error or panic. -/
def parse_gate_lines : List (List Char) → RustResult CircuitError (List Gate)
  | [] => .ok []
  | l :: rest => do
    let g ← parse_gate_line l
    let gs ← parse_gate_lines rest
    pure (g :: gs)

/-- Lifts the `Result`-returning header helper into the parse monad
(`match ... { Ok(v) => v, Err(e) => return Err(e) }`). -/
def lift_header (r : Except CircuitError Nat) : RustResult CircuitError Nat :=
  match r with
  | .ok v => .ok v
  | .error e => .err e

/-- Mirrors `Circuit::parse`, line for line: the minimum-size check, the
header line parsed with `unwrap`s then checked for exactly two entries, the
niv and nov lines (first byte as declared count, remaining tokens parsed with
`unwrap`s, mismatch errors), the mandatory blank fourth line, the gate loop
over every following line, and the final gate-count check. -/
def Circuit.parse (s : String) : RustResult CircuitError Circuit := do
  let lines := rust_lines s.toList
  if lines.length < 5 then
    RustResult.err (CircuitError.ParsingError "the Circuit being too small")
  else do
    let header_info ← parse_all_usize (split_ws (lines.getD 0 []))
    if header_info.length ≠ 2 then
      RustResult.err (CircuitError.ParsingHeaderInformationError 2 header_info.length)
    else do
      let inputs_count ← lift_header (get_expected_line_length_header lines 1)
      let niv ← parse_all_usize ((split_ws (lines.getD 1 [])).drop 1)
      if inputs_count ≠ niv.length then
        RustResult.err (CircuitError.ParsingNivError inputs_count niv.length)
      else do
        let outputs_count ← lift_header (get_expected_line_length_header lines 2)
        let nov ← parse_all_usize ((split_ws (lines.getD 2 [])).drop 1)
        if outputs_count ≠ nov.length then
          RustResult.err (CircuitError.ParsingNovError outputs_count nov.length)
        else do
          let header : Header :=
            { gates_amount := header_info.getD 0 0
              wires_amount := header_info.getD 1 0
              niv := niv
              nov := nov }
          if lines.getD 3 [] ≠ [] then
            RustResult.err CircuitError.EmptyLineMissingError
          else do
            let gates ← parse_gate_lines (lines.drop 4)
            if gates.length ≠ header.gates_amount then
              RustResult.err (CircuitError.WrongGateAmount header.gates_amount gates.length)
            else
              pure { header := header, gates := gates }

/-! ## Plaintext evaluation (the spec's reference semantics for claim C1) -/

/-- Plaintext semantics of one gate: XOR, AND, INV with their boolean truth
tables, over the same optional wire table and the same panic conventions. -/
def plain_step (w : List (Option Bool)) (g : Gate) : Except ExecError (List (Option Bool)) :=
  match g.gate_type with
  | .INV a => do
    let v ← get_wire_value w a
    set_wire w g.output (some (!v))
  | .XOR a b => do
    let va ← get_wire_value w a
    let vb ← get_wire_value w b
    set_wire w g.output (some (va ^^ vb))
  | .AND a b => do
    let va ← get_wire_value w a
    let vb ← get_wire_value w b
    set_wire w g.output (some (va && vb))

/-- Plaintext evaluation of the circuit on the pair `(x, y)`: the input wires
hold, per the protocol's canonical order, party 1's input `y` in the leading
64 wires and party 0's input `x` in the following 64, then the gates run with
plain boolean semantics and the output tail is read off. -/
def plain_execute (c : Circuit) (x y : List Bool) : Except ExecError (List Bool) := do
  let w ← write_shares (List.replicate c.header.wires_amount none) 0 (y ++ x)
  let wfin ← c.gates.foldlM plain_step w
  extract_output wfin c.get_output_wires

/-! ## Basic lemmas about the embedding -/

theorem except_bind_ok {ε α β : Type} (x : Except ε α) (f : α → Except ε β) (b : β) :
    (x >>= f) = .ok b ↔ ∃ a, x = .ok a ∧ f a = .ok b := by
  cases x <;> simp [Bind.bind, Except.bind]

theorem get_wire_value_ok {w : List (Option Bool)} {i : Nat} {v : Bool} :
    get_wire_value w i = .ok v ↔ w.get? i = some (some v) := by
  unfold get_wire_value
  rcases h : w.get? i with _ | (_ | b) <;> simp

theorem set_wire_ok {w : List (Option Bool)} {i : Nat} {v : Option Bool}
    {w2 : List (Option Bool)} :
    set_wire w i v = .ok w2 ↔ i < w.length ∧ w2 = w.set i v := by
  unfold set_wire
  by_cases h : i < w.length <;> simp [h, eq_comm]

/-- Pointwise relation between the two parties' wire entries and the plaintext
entry: set together with XOR-sharing values, or all unset. -/
def entry_rel : Option Bool → Option Bool → Option Bool → Prop
  | none, none, none => True
  | some b0, some b1, some bp => bp = (b0 ^^ b1)
  | _, _, _ => False

/-- The simulation invariant for claim C1: the plaintext wire table is the
pointwise XOR-reconstruction of the two parties' tables. -/
def WireRel : List (Option Bool) → List (Option Bool) → List (Option Bool) → Prop
  | [], [], [] => True
  | e0 :: t0, e1 :: t1, ep :: tp => entry_rel e0 e1 ep ∧ WireRel t0 t1 tp
  | _, _, _ => False

theorem rel_length {l0 l1 lp : List (Option Bool)} (h : WireRel l0 l1 lp) :
    l0.length = lp.length ∧ l1.length = lp.length := by
  induction l0 generalizing l1 lp with
  | nil => cases l1 <;> cases lp <;> simp_all [WireRel]
  | cons e0 t0 ih =>
    cases l1 with
    | nil => simp_all [WireRel]
    | cons e1 t1 =>
      cases lp with
      | nil => simp_all [WireRel]
      | cons ep tp =>
        obtain ⟨-, hrest⟩ := h
        have := ih hrest
        simp_all

theorem rel_get? {l0 l1 lp : List (Option Bool)} (h : WireRel l0 l1 lp) (i : Nat) :
    (l0.get? i = none ∧ l1.get? i = none ∧ lp.get? i = none) ∨
    (∃ e0 e1 ep, l0.get? i = some e0 ∧ l1.get? i = some e1 ∧ lp.get? i = some ep ∧
      entry_rel e0 e1 ep) := by
  induction l0 generalizing l1 lp i with
  | nil =>
    cases l1 <;> cases lp <;> simp_all [WireRel]
  | cons e0 t0 ih =>
    cases l1 with
    | nil => simp_all [WireRel]
    | cons e1 t1 =>
      cases lp with
      | nil => simp_all [WireRel]
      | cons ep tp =>
        obtain ⟨hhead, hrest⟩ := h
        cases i with
        | zero => right; exact ⟨e0, e1, ep, rfl, rfl, rfl, hhead⟩
        | succ j => simpa using ih hrest j

theorem rel_set {l0 l1 lp : List (Option Bool)} (h : WireRel l0 l1 lp)
    {e0 e1 ep : Option Bool} (he : entry_rel e0 e1 ep) (i : Nat) :
    WireRel (l0.set i e0) (l1.set i e1) (lp.set i ep) := by
  induction l0 generalizing l1 lp i with
  | nil => cases l1 <;> cases lp <;> simp_all [WireRel]
  | cons a0 t0 ih =>
    cases l1 with
    | nil => simp_all [WireRel]
    | cons a1 t1 =>
      cases lp with
      | nil => simp_all [WireRel]
      | cons ap tp =>
        obtain ⟨hhead, hrest⟩ := h
        cases i with
        | zero => exact ⟨he, hrest⟩
        | succ j => exact ⟨hhead, ih hrest j⟩

theorem rel_drop {l0 l1 lp : List (Option Bool)} (h : WireRel l0 l1 lp) (k : Nat) :
    WireRel (l0.drop k) (l1.drop k) (lp.drop k) := by
  induction l0 generalizing l1 lp k with
  | nil => cases l1 <;> cases lp <;> cases k <;> simp_all [WireRel]
  | cons a0 t0 ih =>
    cases l1 with
    | nil => simp_all [WireRel]
    | cons a1 t1 =>
      cases lp with
      | nil => simp_all [WireRel]
      | cons ap tp =>
        obtain ⟨hhead, hrest⟩ := h
        cases k with
        | zero => exact ⟨hhead, hrest⟩
        | succ j => simpa using ih hrest j

theorem rel_replicate (k : Nat) :
    WireRel (List.replicate k none) (List.replicate k none) (List.replicate k none) := by
  induction k with
  | zero => trivial
  | succ j ih => exact ⟨trivial, ih⟩

theorem rel_append {l0 l1 lp r0 r1 rp : List (Option Bool)}
    (h : WireRel l0 l1 lp) (h2 : WireRel r0 r1 rp) :
    WireRel (l0 ++ r0) (l1 ++ r1) (lp ++ rp) := by
  induction l0 generalizing l1 lp with
  | nil => cases l1 <;> cases lp <;> simp_all [WireRel]
  | cons a0 t0 ih =>
    cases l1 with
    | nil => simp_all [WireRel]
    | cons a1 t1 =>
      cases lp with
      | nil => simp_all [WireRel]
      | cons ap tp =>
        obtain ⟨hhead, hrest⟩ := h
        exact ⟨hhead, ih hrest⟩

theorem rel_of_maps {s0 s1 : List Bool} (h : s0.length = s1.length) :
    WireRel (s0.map some) (s1.map some)
      ((List.zipWith (fun u v => Bool.xor u v) s0 s1).map some) := by
  induction s0 generalizing s1 with
  | nil => cases s1 <;> simp_all [WireRel]
  | cons a0 t0 ih =>
    cases s1 with
    | nil => simp_all
    | cons a1 t1 =>
      refine ⟨rfl, ?_⟩
      exact ih (by simpa using h)

theorem write_shares_cons (e : Option Bool) (w : List (Option Bool)) (i : Nat) (bs : List Bool) :
    write_shares (e :: w) (i + 1) bs = Except.map (List.cons e) (write_shares w i bs) := by
  induction bs generalizing w i e with
  | nil => simp [write_shares, Except.map]
  | cons b bs ih =>
    by_cases hi : i < w.length
    · have h1 : i + 1 < w.length + 1 := by omega
      simp only [write_shares, set_wire, List.length_cons]
      rw [if_pos h1, if_pos hi]
      simp only [Bind.bind, Except.bind, List.set_cons_succ]
      exact ih e (w.set i (some b)) (i + 1)
    · have h1 : ¬ (i + 1 < w.length + 1) := by omega
      simp only [write_shares, set_wire, List.length_cons]
      rw [if_neg h1, if_neg hi]
      simp [Bind.bind, Except.bind, Except.map]

theorem write_shares_zero {share : List Bool} {w : List (Option Bool)}
    (h : share.length ≤ w.length) :
    write_shares w 0 share = .ok (share.map some ++ w.drop share.length) := by
  induction share generalizing w with
  | nil => simp [write_shares]
  | cons b bs ih =>
    cases w with
    | nil => simp at h
    | cons c w2 =>
      have hlen : bs.length ≤ w2.length := by simpa using h
      have h0 : set_wire (c :: w2) 0 (some b) = .ok (some b :: w2) := by
        simp [set_wire]
      simp only [write_shares, h0, Bind.bind, Except.bind]
      rw [show (0 + 1) = 1 from rfl, show (some b :: w2) = ((some b) :: w2) from rfl]
      have := write_shares_cons (some b) w2 0 bs
      rw [this, ih hlen]
      simp [Except.map]

theorem write_shares_ok_length {share : List Bool} :
    ∀ {w w2 : List (Option Bool)} {i : Nat}, write_shares w i share = .ok w2 →
      w2.length = w.length := by
  induction share with
  | nil => intro w w2 i h; simp [write_shares] at h; simp [h]
  | cons b bs ih =>
    intro w w2 i h
    simp only [write_shares, Bind.bind, Except.bind] at h
    rcases hs : set_wire w i (some b) with e | w1 <;> rw [hs] at h
    · cases h
    · have := ih h
      rcases set_wire_ok.mp hs with ⟨-, rfl⟩
      simpa using this

theorem write_shares_ok_bound {share : List Bool} :
    ∀ {w w2 : List (Option Bool)} {i : Nat}, write_shares w i share = .ok w2 →
      share = [] ∨ i + share.length ≤ w.length := by
  induction share with
  | nil => intro _ _ _ _; exact Or.inl rfl
  | cons b bs ih =>
    intro w w2 i h
    right
    simp only [write_shares, Bind.bind, Except.bind] at h
    rcases hs : set_wire w i (some b) with e | w1 <;> rw [hs] at h
    · cases h
    · rcases set_wire_ok.mp hs with ⟨hlt, rfl⟩
      rcases ih h with hnil | hb
      · subst hnil; simp; omega
      · simp only [List.length_set] at hb
        simp only [List.length_cons]
        omega

theorem write_shares_panic {share : List Bool} :
    ∀ {w : List (Option Bool)} {i : Nat}, share ≠ [] → w.length < i + share.length →
      write_shares w i share = .error .panic := by
  induction share with
  | nil => intro _ _ hne _; exact absurd rfl hne
  | cons b bs ih =>
    intro w i _ hlen
    by_cases hi : i < w.length
    · have hbs : bs ≠ [] := by
        intro hnil
        subst hnil
        simp at hlen
        omega
      have hs : set_wire w i (some b) = .ok (w.set i (some b)) := by simp [set_wire, hi]
      simp only [write_shares, hs, Bind.bind, Except.bind]
      exact ih hbs (by simp only [List.length_set, List.length_cons] at hlen ⊢; omega)
    · have hs : set_wire w i (some b) = .error .panic := by simp [set_wire, hi]
      simp [write_shares, hs, Bind.bind, Except.bind]

theorem xor_mask_left : ∀ (v m : List Bool), v.length = m.length →
    List.zipWith (fun u w => Bool.xor u w) m (List.zipWith (fun u w => Bool.xor u w) v m) = v := by
  intro v
  induction v with
  | nil => intro m _; simp
  | cons a t ih =>
    intro m hm
    cases m with
    | nil => simp at hm
    | cons c mt =>
      simp only [List.zipWith_cons_cons, List.cons.injEq]
      refine ⟨?_, ih mt (by simpa using hm)⟩
      cases a <;> cases c <;> rfl

theorem xor_mask_right : ∀ (v m : List Bool), v.length = m.length →
    List.zipWith (fun u w => Bool.xor u w) (List.zipWith (fun u w => Bool.xor u w) v m) m = v := by
  intro v
  induction v with
  | nil => intro m _; simp
  | cons a t ih =>
    intro m hm
    cases m with
    | nil => simp at hm
    | cons c mt =>
      simp only [List.zipWith_cons_cons, List.cons.injEq]
      refine ⟨?_, ih mt (by simpa using hm)⟩
      cases a <;> cases c <;> rfl

/-- Beaver-triple correctness of the joint AND evaluation: with a valid triple
split, the two locally computed output shares XOR to the AND of the
reconstructed inputs. -/
theorem evaluate_and_pair_xor (t0 t1 : MulTriple) (x0 y0 x1 y1 : Bool)
    (h : triple_valid (t0, t1)) :
    (((evaluate_and_pair t0 t1 x0 y0 x1 y1).1) ^^ ((evaluate_and_pair t0 t1 x0 y0 x1 y1).2))
      = ((x0 ^^ x1) && (y0 ^^ y1)) := by
  obtain ⟨a0, b0, c0⟩ := t0
  obtain ⟨a1, b1, c1⟩ := t1
  revert h
  simp only [triple_valid, evaluate_and_pair, evaluate_and, and_message]
  revert a0 b0 c0 a1 b1 c1 x0 y0 x1 y1
  decide

theorem rel_get_ok {l0 l1 lp : List (Option Bool)} (h : WireRel l0 l1 lp) {i : Nat} {v0 : Bool}
    (h0 : get_wire_value l0 i = .ok v0) :
    ∃ v1, get_wire_value l1 i = .ok v1 ∧ get_wire_value lp i = .ok (v0 ^^ v1) := by
  rw [get_wire_value_ok] at h0
  rcases rel_get? h i with ⟨ha, -, -⟩ | ⟨e0, e1, ep, he0, he1, hep, he⟩
  · rw [h0] at ha; cases ha
  · rw [h0] at he0
    injection he0 with he0
    subst he0
    cases e1 with
    | none => exact absurd he (by simp [entry_rel])
    | some v1 =>
      cases ep with
      | none => exact absurd he (by simp [entry_rel])
      | some vp =>
        have hvp : vp = (v0 ^^ v1) := he
        exact ⟨v1, get_wire_value_ok.mpr he1, by rw [← hvp]; exact get_wire_value_ok.mpr hep⟩

theorem rel_set_wire {l0 l1 lp : List (Option Bool)} (h : WireRel l0 l1 lp)
    {e0 e1 ep : Option Bool} (he : entry_rel e0 e1 ep) {i : Nat} (hi : i < l0.length) :
    set_wire l0 i e0 = .ok (l0.set i e0) ∧ set_wire l1 i e1 = .ok (l1.set i e1) ∧
    set_wire lp i ep = .ok (lp.set i ep) ∧
    WireRel (l0.set i e0) (l1.set i e1) (lp.set i ep) := by
  obtain ⟨hl0, hl1⟩ := rel_length h
  refine ⟨by simp [set_wire, hi], by simp [set_wire]; omega, by simp [set_wire]; omega, ?_⟩
  exact rel_set h he i

/-- One joint GMW gate step simulates one plaintext gate step through the
XOR-sharing invariant, provided the consumed triple (if any) is valid. -/
theorem gmw_step_rel {ts : Nat → MulTriple × MulTriple}
    (hts : ∀ k, triple_valid (ts k)) {st st' : ExecState} {wp : List (Option Bool)} {g : Gate}
    (hrel : WireRel st.w0 st.w1 wp) (h : gmw_step ts st g = .ok st') :
    ∃ wp', plain_step wp g = .ok wp' ∧ WireRel st'.w0 st'.w1 wp' := by
  obtain ⟨gt, out⟩ := g
  cases gt with
  | INV a =>
    simp only [gmw_step, except_bind_ok] at h
    obtain ⟨v0, hv0, h⟩ := h
    obtain ⟨v1, hv1, h⟩ := h
    obtain ⟨u0, hu0, h⟩ := h
    obtain ⟨u1, hu1, h⟩ := h
    simp only [pure, Except.pure, Except.ok.injEq] at h
    subst h
    obtain ⟨v1b, hv1b, hvp⟩ := rel_get_ok hrel hv0
    have hv1e : v1 = v1b := by rw [hv1b] at hv1; injection hv1 with e; exact e.symm
    subst hv1e
    have hi : out < st.w0.length := (set_wire_ok.mp hu0).1
    have he : entry_rel (some v0) (some (!v1)) (some (!(v0 ^^ v1))) := by
      cases v0 <;> cases v1 <;> rfl
    obtain ⟨hs0, hs1, hsp, hr⟩ := rel_set_wire hrel he hi
    refine ⟨wp.set out (some (!(v0 ^^ v1))), ?_, ?_⟩
    · simp only [plain_step, except_bind_ok]
      exact ⟨v0 ^^ v1, hvp, hsp⟩
    · obtain ⟨-, rfl⟩ := set_wire_ok.mp hu0
      have : u1 = st.w1.set out (some (!v1)) := by
        rw [hs1] at hu1; injection hu1 with e; exact e.symm
      subst this
      exact hr
  | XOR a b =>
    simp only [gmw_step, except_bind_ok] at h
    obtain ⟨x0, hx0, h⟩ := h
    obtain ⟨y0, hy0, h⟩ := h
    obtain ⟨x1, hx1, h⟩ := h
    obtain ⟨y1, hy1, h⟩ := h
    obtain ⟨u0, hu0, h⟩ := h
    obtain ⟨u1, hu1, h⟩ := h
    simp only [pure, Except.pure, Except.ok.injEq] at h
    subst h
    obtain ⟨x1b, hx1b, hxp⟩ := rel_get_ok hrel hx0
    obtain ⟨y1b, hy1b, hyp⟩ := rel_get_ok hrel hy0
    have hx1e : x1 = x1b := by rw [hx1b] at hx1; injection hx1 with e; exact e.symm
    have hy1e : y1 = y1b := by rw [hy1b] at hy1; injection hy1 with e; exact e.symm
    subst hx1e; subst hy1e
    have hi : out < st.w0.length := (set_wire_ok.mp hu0).1
    have he : entry_rel (some (x0 ^^ y0)) (some (x1 ^^ y1))
        (some ((x0 ^^ x1) ^^ (y0 ^^ y1))) := by
      cases x0 <;> cases x1 <;> cases y0 <;> cases y1 <;> rfl
    obtain ⟨hs0, hs1, hsp, hr⟩ := rel_set_wire hrel he hi
    refine ⟨wp.set out (some ((x0 ^^ x1) ^^ (y0 ^^ y1))), ?_, ?_⟩
    · simp only [plain_step, except_bind_ok]
      exact ⟨x0 ^^ x1, hxp, y0 ^^ y1, hyp, hsp⟩
    · obtain ⟨-, rfl⟩ := set_wire_ok.mp hu0
      have : u1 = st.w1.set out (some (x1 ^^ y1)) := by
        rw [hs1] at hu1; injection hu1 with e; exact e.symm
      subst this
      exact hr
  | AND a b =>
    simp only [gmw_step, except_bind_ok] at h
    obtain ⟨x0, hx0, h⟩ := h
    obtain ⟨y0, hy0, h⟩ := h
    obtain ⟨x1, hx1, h⟩ := h
    obtain ⟨y1, hy1, h⟩ := h
    obtain ⟨u0, hu0, h⟩ := h
    obtain ⟨u1, hu1, h⟩ := h
    simp only [pure, Except.pure, Except.ok.injEq] at h
    subst h
    obtain ⟨x1b, hx1b, hxp⟩ := rel_get_ok hrel hx0
    obtain ⟨y1b, hy1b, hyp⟩ := rel_get_ok hrel hy0
    have hx1e : x1 = x1b := by rw [hx1b] at hx1; injection hx1 with e; exact e.symm
    have hy1e : y1 = y1b := by rw [hy1b] at hy1; injection hy1 with e; exact e.symm
    subst hx1e; subst hy1e
    have hi : out < st.w0.length := (set_wire_ok.mp hu0).1
    have hz := evaluate_and_pair_xor (ts st.used).1 (ts st.used).2 x0 y0 x1 y1 (hts st.used)
    have he : entry_rel
        (some (evaluate_and false (ts st.used).1 x0 y0 (and_message (ts st.used).2 x1 y1)))
        (some (evaluate_and true (ts st.used).2 x1 y1 (and_message (ts st.used).1 x0 y0)))
        (some ((x0 ^^ x1) && (y0 ^^ y1))) := by
      simp only [entry_rel]
      exact hz.symm
    obtain ⟨hs0, hs1, hsp, hr⟩ := rel_set_wire hrel he hi
    refine ⟨wp.set out (some ((x0 ^^ x1) && (y0 ^^ y1))), ?_, ?_⟩
    · simp only [plain_step, except_bind_ok]
      exact ⟨x0 ^^ x1, hxp, y0 ^^ y1, hyp, hsp⟩
    · obtain ⟨-, rfl⟩ := set_wire_ok.mp hu0
      have : u1 = st.w1.set out (some (evaluate_and true (ts st.used).2 x1 y1
          (and_message (ts st.used).1 x0 y0))) := by
        rw [hs1] at hu1; injection hu1 with e; exact e.symm
      subst this
      exact hr

/-- The whole gate loop simulates the plaintext gate loop. -/
theorem gmw_fold_rel {ts : Nat → MulTriple × MulTriple} (hts : ∀ k, triple_valid (ts k)) :
    ∀ (gates : List Gate) (st : ExecState) (wp : List (Option Bool)) (st' : ExecState),
      WireRel st.w0 st.w1 wp → List.foldlM (gmw_step ts) st gates = .ok st' →
      ∃ wp', List.foldlM plain_step wp gates = .ok wp' ∧ WireRel st'.w0 st'.w1 wp' := by
  intro gates
  induction gates with
  | nil =>
    intro st wp st' hrel h
    simp only [List.foldlM_nil, pure, Except.pure, Except.ok.injEq] at h
    subst h
    exact ⟨wp, rfl, hrel⟩
  | cons g rest ih =>
    intro st wp st' hrel h
    simp only [List.foldlM_cons, except_bind_ok] at h
    obtain ⟨st1, hst1, h⟩ := h
    obtain ⟨wp1, hwp1, hrel1⟩ := gmw_step_rel hts hrel hst1
    obtain ⟨wp', hwp', hrel'⟩ := ih st1 wp1 st' hrel1 h
    exact ⟨wp', by simp only [List.foldlM_cons, except_bind_ok]; exact ⟨wp1, hwp1, hwp'⟩, hrel'⟩

theorem unwrap_all_ok : ∀ {l : List (Option Bool)} {s : List Bool},
    unwrap_all l = .ok s ↔ l = s.map some := by
  intro l
  induction l with
  | nil => intro s; cases s <;> simp [unwrap_all]
  | cons e rest ih =>
    intro s
    cases e with
    | none => cases s <;> simp [unwrap_all]
    | some v =>
      simp only [unwrap_all, Bind.bind, Except.bind]
      rcases hr : unwrap_all rest with er | vs
      · constructor
        · intro h; cases h
        · intro h
          cases s with
          | nil => simp at h
          | cons s0 srest =>
            simp only [List.map_cons, List.cons.injEq] at h
            obtain ⟨he, hrest⟩ := h
            rw [ih.mpr hrest] at hr
            cases hr
      · have hrest := ih.mp hr
        subst hrest
        constructor
        · intro h
          simp only [pure, Except.pure, Except.ok.injEq] at h
          subst h
          simp
        · intro h
          cases s with
          | nil => simp at h
          | cons s0 srest =>
            simp only [List.map_cons, List.cons.injEq] at h
            obtain ⟨he, hrest⟩ := h
            injection he with he
            subst he
            have : srest = vs :=
              (List.map_injective_iff.mpr (Option.some_injective Bool) hrest).symm
            subst this
            simp [pure, Except.pure]

theorem rel_unwrap : ∀ {l0 l1 lp : List (Option Bool)}, WireRel l0 l1 lp →
    ∀ {s0 : List Bool}, unwrap_all l0 = .ok s0 →
    ∃ s1, unwrap_all l1 = .ok s1 ∧
      unwrap_all lp = .ok (List.zipWith (fun u v => Bool.xor u v) s0 s1) := by
  intro l0
  induction l0 with
  | nil =>
    intro l1 lp h s0 h0
    cases l1 with
    | cons e t => exact absurd h (by simp [WireRel])
    | nil =>
      cases lp with
      | cons e t => exact absurd h (by simp [WireRel])
      | nil =>
        have hs : s0 = [] := by
          have h2 := unwrap_all_ok.mp h0
          cases s0 with
          | nil => rfl
          | cons a b => simp at h2
        subst hs
        exact ⟨[], rfl, rfl⟩
  | cons e0 t0 ih =>
    intro l1 lp h s0 h0
    cases l1 with
    | nil => exact absurd h (by simp [WireRel])
    | cons e1 t1 =>
      cases lp with
      | nil => exact absurd h (by simp [WireRel])
      | cons ep tp =>
        obtain ⟨hhead, hrest⟩ := h
        cases e0 with
        | none => simp [unwrap_all] at h0
        | some v0 =>
          cases e1 with
          | none => exact absurd hhead (by simp [entry_rel])
          | some v1 =>
            cases ep with
            | none => exact absurd hhead (by simp [entry_rel])
            | some vp =>
              have hvp : vp = (v0 ^^ v1) := hhead
              subst hvp
              have h0l := unwrap_all_ok.mp h0
              cases s0 with
              | nil => simp at h0l
              | cons sv srest =>
                simp only [List.map_cons, List.cons.injEq] at h0l
                obtain ⟨hv, hrestmap⟩ := h0l
                injection hv with hv
                subst hv
                obtain ⟨s1, hs1, hsp⟩ := ih hrest (unwrap_all_ok.mpr hrestmap)
                refine ⟨v1 :: s1, ?_, ?_⟩
                · rw [unwrap_all_ok] at hs1 ⊢
                  simp [hs1]
                · rw [unwrap_all_ok] at hsp ⊢
                  simp [hsp]

set_option maxRecDepth 8192 in
/-- Initial wire-table relation after Phase A: the two parties' input-share
tables XOR-reconstruct to the plaintext inputs `y ++ x`. -/
theorem phase_a_rel {x y m0 m1 : List Bool} {n : Nat}
    (hx : x.length = 64) (hy : y.length = 64) (hm0 : m0.length = 64) (hm1 : m1.length = 64)
    {w0 w1 : List (Option Bool)} {ms : Messages × Messages}
    (ha : phase_a n x y m0 m1 = .ok (w0, w1, ms)) :
    128 ≤ n ∧
    write_shares (List.replicate n none) 0 (y ++ x) =
      .ok ((y ++ x).map some ++ List.replicate (n - 128) none) ∧
    WireRel w0 w1 ((y ++ x).map some ++ List.replicate (n - 128) none) ∧
    ms = (Messages.Shares m0, Messages.Shares m1) := by
  simp only [phase_a, generate_shares, except_bind_ok] at ha
  obtain ⟨w0v, hw0, ha⟩ := ha
  obtain ⟨w1v, hw1, ha⟩ := ha
  simp only [pure, Except.pure, Except.ok.injEq, Prod.mk.injEq] at ha
  obtain ⟨h0e, h1e, hme⟩ := ha
  subst h0e; subst h1e
  have hlz : (List.zipWith (fun v m => Bool.xor v m) x m0).length = 64 := by
    simp [List.length_zipWith, hx, hm0]
  have hlz1 : (List.zipWith (fun v m => Bool.xor v m) y m1).length = 64 := by
    simp [List.length_zipWith, hy, hm1]
  have hs0len : (m1 ++ List.zipWith (fun v m => Bool.xor v m) x m0).length = 128 := by
    simp [hm1, hlz]
  have hs1len : (List.zipWith (fun v m => Bool.xor v m) y m1 ++ m0).length = 128 := by
    simp [hm0, hlz1]
  have hyx : (y ++ x).length = 128 := by simp [hx, hy]
  have hn : 128 ≤ n := by
    rcases write_shares_ok_bound hw0 with hnil | hb
    · rw [hnil] at hs0len; simp at hs0len
    · simpa [hs0len, List.length_replicate] using hb
  have hrepl : (List.replicate n (none : Option Bool)).length = n := by simp
  have hchar0 := @write_shares_zero (m1 ++ List.zipWith (fun v m => Bool.xor v m) x m0)
    (List.replicate n none) (by rw [hs0len]; simpa using hn)
  have hchar1 := @write_shares_zero (List.zipWith (fun v m => Bool.xor v m) y m1 ++ m0)
    (List.replicate n none) (by rw [hs1len]; simpa using hn)
  have hcharp := @write_shares_zero (y ++ x)
    (List.replicate n none) (by rw [hyx]; simpa using hn)
  rw [hchar0, hs0len] at hw0
  rw [hchar1, hs1len] at hw1
  rw [hyx] at hcharp
  injection hw0 with hw0
  injection hw1 with hw1
  subst hw0; subst hw1
  refine ⟨hn, by simpa using hcharp, ?_, hme.symm⟩
  simp only [List.drop_replicate]
  have hzip : List.zipWith (fun u v => Bool.xor u v)
      (m1 ++ List.zipWith (fun v m => Bool.xor v m) x m0)
      (List.zipWith (fun v m => Bool.xor v m) y m1 ++ m0) = y ++ x := by
    rw [List.zipWith_append _ _ _ _ _ (by rw [hm1, hlz1])]
    congr 1
    · exact xor_mask_left y m1 (by rw [hy, hm1])
    · exact xor_mask_right x m0 (by rw [hx, hm0])
  have hrm := @rel_of_maps (m1 ++ List.zipWith (fun v m => Bool.xor v m) x m0)
    (List.zipWith (fun v m => Bool.xor v m) y m1 ++ m0) (by rw [hs0len, hs1len])
  rw [hzip] at hrm
  exact rel_append hrm (rel_replicate (n - 128))

/-- Claim C1: whenever the two-party lockstep execution runs to completion on
a circuit with 64-bit inputs `x`, `y`, arbitrary masks and a valid triple
stream, the reconstructed output equals the plaintext evaluation of the same
circuit, and both parties return the same vector. -/
theorem gmw_roundtrip (c : Circuit) (x y m0 m1 : List Bool)
    (ts : Nat → MulTriple × MulTriple)
    (hx : x.length = 64) (hy : y.length = 64) (hm0 : m0.length = 64) (hm1 : m1.length = 64)
    (hts : ∀ k, triple_valid (ts k)) (r : List Bool × List Bool)
    (hr : gmw_execute c x y m0 m1 ts = .ok r) :
    plain_execute c x y = .ok r.1 ∧ r.1 = r.2 := by
  simp only [gmw_execute, except_bind_ok] at hr
  obtain ⟨a, ha, hr⟩ := hr
  obtain ⟨st, hst, hr⟩ := hr
  obtain ⟨sol0, hsol0, hr⟩ := hr
  obtain ⟨sol1, hsol1, hr⟩ := hr
  simp only [pure, Except.pure, Except.ok.injEq] at hr
  obtain ⟨w0, w1, ms⟩ := a
  obtain ⟨hn, hcharp, hrel0, hms⟩ := phase_a_rel hx hy hm0 hm1 ha
  obtain ⟨wp', hfold, hrel'⟩ := gmw_fold_rel hts c.gates ⟨w0, w1, 0, [ms]⟩
    ((y ++ x).map some ++ List.replicate (c.header.wires_amount - 128) none) st hrel0 hst
  have hdrop := rel_drop hrel' c.get_output_wires
  obtain ⟨s1, hs1, hsp⟩ := rel_unwrap hdrop hsol0
  have hs1e : sol1 = s1 := by
    rw [extract_output] at hsol1
    rw [hsol1] at hs1
    injection hs1
  subst hs1e
  constructor
  · rw [← hr]
    simp only [plain_execute, except_bind_ok]
    exact ⟨_, hcharp, wp', hfold, hsp⟩
  · rw [← hr]
    simp only [reconcile]
    exact List.zipWith_comm_of_comm _ Bool.xor_comm sol0 sol1

/-! ## Supporting definitions and lemmas for the remaining claims -/

/-- The output-share formula the spec attributes to one role:
`(d & b_t) XOR (e & a_t) XOR c_t` (no `d & e` term). -/
def and_formula_no_de (t : MulTriple) (d e : Bool) : Bool :=
  ((d && t.b) ^^ (e && t.a)) ^^ t.c

/-- The output-share formula the spec attributes to the other role:
`(d & b_t) XOR (e & a_t) XOR c_t XOR (d & e)`. -/
def and_formula_with_de (t : MulTriple) (d e : Bool) : Bool :=
  (((d && t.b) ^^ (e && t.a)) ^^ t.c) ^^ (d && e)

/-- The spec's Phase A wire-assignment claim, parameterised by the two block
sizes: wires `0..niv0-1` hold the second party's share set, wires
`niv0..niv0+niv1-1` hold the first party's share set. -/
def block_assignment (niv0 niv1 : Nat) (secondSet firstSet : List Bool)
    (w : List (Option Bool)) : Prop :=
  (∀ j, j < niv0 → j < secondSet.length →
    w.get? j = some (some (secondSet.getD j false))) ∧
  (∀ j, j < niv1 → j < firstSet.length →
    w.get? (niv0 + j) = some (some (firstSet.getD j false)))

instance (niv0 niv1 : Nat) (s f : List Bool) (w : List (Option Bool)) :
    Decidable (block_assignment niv0 niv1 s f w) := by
  unfold block_assignment; infer_instance

theorem get?_shares {s : List Bool} {t : List (Option Bool)} {j : Nat} (h : j < s.length) :
    (s.map some ++ t).get? j = some (some (s.getD j false)) := by
  rw [List.get?_append (by simpa using h), List.get?_map]
  rcases hg : s.get? j with _ | v
  · exact absurd (List.get?_eq_none.mp hg) (by omega)
  · have hg2 : s[j]? = some v := by rw [← List.get?_eq_getElem?]; exact hg
    simp [List.getD_eq_get?, hg, hg2]

theorem block_assignment_append (A B : List Bool) (t : List (Option Bool)) :
    block_assignment A.length B.length A B ((A ++ B).map some ++ t) := by
  constructor
  · intro j hj _
    have h1 : j < (A ++ B).length := by simp; omega
    rw [get?_shares h1, List.getD_append _ _ _ _ hj]
  · intro j hj _
    have h1 : A.length + j < (A ++ B).length := by simp; omega
    rw [get?_shares h1, List.getD_append_right _ _ _ _ (by omega)]
    simp

/-- The explicit success value of Phase A for 64-bit inputs on a large enough
wire table: each engine's table is its 128 input-share wires followed by
unset wires, and the messages exchanged are exactly the two mask vectors. -/
theorem phase_a_char {x y m0 m1 : List Bool} {n : Nat}
    (hx : x.length = 64) (hy : y.length = 64) (hm0 : m0.length = 64) (hm1 : m1.length = 64)
    (hn : 128 ≤ n) :
    phase_a n x y m0 m1 = .ok
      ((m1 ++ List.zipWith (fun v m => Bool.xor v m) x m0).map some ++
          List.replicate (n - 128) none,
        (List.zipWith (fun v m => Bool.xor v m) y m1 ++ m0).map some ++
          List.replicate (n - 128) none,
        (Messages.Shares m0, Messages.Shares m1)) := by
  have h0 : (m1 ++ List.zipWith (fun v m => Bool.xor v m) x m0).length = 128 := by
    simp [List.length_zipWith, hx, hm0, hm1]
  have h1 : (List.zipWith (fun v m => Bool.xor v m) y m1 ++ m0).length = 128 := by
    simp [List.length_zipWith, hy, hm1, hm0]
  simp only [phase_a, generate_shares]
  rw [write_shares_zero (by rw [h0]; simpa using hn)]
  simp only [Bind.bind, Except.bind]
  rw [write_shares_zero (by rw [h1]; simpa using hn)]
  simp only [Bind.bind, Except.bind, pure, Except.pure]
  rw [h0, h1]
  simp [List.drop_replicate]

theorem unwrap_all_panic {l : List (Option Bool)} (h : none ∈ l) :
    unwrap_all l = .error .panic := by
  induction l with
  | nil => cases h
  | cons e rest ih =>
    cases e with
    | none => rfl
    | some v =>
      have hrest : none ∈ rest := by simpa using h
      simp [unwrap_all, ih hrest, Bind.bind, Except.bind]

theorem getD_shares_isSome (s : List Bool) (k i : Nat) :
    ((s.map some ++ List.replicate k none).getD i none).isSome ↔ i < s.length := by
  by_cases h : i < s.length
  · rw [List.getD_eq_get?, List.get?_append (by simpa using h), List.get?_map]
    rcases hg : s.get? i with _ | v
    · exact absurd (List.get?_eq_none.mp hg) (by omega)
    · simp [h]
  · rw [List.getD_eq_get?, List.get?_append_right (by simpa using h)]
    rw [List.get?_eq_getElem?, List.getElem?_replicate]
    split <;> simp [h]

/-! ## Concrete instances used by witnesses and counterexamples -/

/-- The all-false 64-bit input/mask vector. -/
def zeros64 : List Bool := List.replicate 64 false

/-- The all-true 64-bit input/mask vector. -/
def ones64 : List Bool := List.replicate 64 true

/-- The 64-bit vector encoding the integer 1 (bit 0 set). -/
def x_one : List Bool := true :: List.replicate 63 false

/-- The all-zero triple stream (the trivial provider of src/mul_triple.rs). -/
def ts_zero : Nat → MulTriple × MulTriple := fun _ => (⟨false, false, false⟩, ⟨false, false, false⟩)

/-- A valid non-degenerate triple stream:
`c0 ^ c1 = true = (a0 ^ a1) & (b0 ^ b1)`. -/
def ts_mixed : Nat → MulTriple × MulTriple := fun _ => (⟨true, false, true⟩, ⟨false, true, false⟩)

/-- A single-AND circuit on 129 wires: inputs wire 0 (party 1's bit 0) and
wire 64 (party 0's bit 0), output wire 128, `nov = [1]`. -/
def and_circuit : Circuit := ⟨⟨1, 129, [64, 64], [1]⟩, [⟨.AND 0 64, 128⟩]⟩

/-- A gateless circuit on 129 wires with one output wire: wire 128 is never
written, so Phase C must read an unset wire. -/
def no_gate_circuit : Circuit := ⟨⟨0, 129, [64, 64], [1]⟩, []⟩

/-! ## Claims -/

/-- Claim C2: for all booleans `x, y` split into XOR shares `(x0, x1)`,
`(y0, y1)`, and any two local triples satisfying
`c0 XOR c1 = (a0 XOR a1) & (b0 XOR b1)`, the two parties' AND-gate outputs
(each exchanging its masked pair and applying its role's formula) satisfy
`z0 XOR z1 = x & y` where `x = x0 XOR x1`, `y = y0 XOR y1`. -/
theorem and_sharing_correct (x0 x1 y0 y1 a0 b0 c0 a1 b1 c1 : Bool)
    (h : (c0 ^^ c1) = ((a0 ^^ a1) && (b0 ^^ b1))) :
    (((evaluate_and_pair ⟨a0, b0, c0⟩ ⟨a1, b1, c1⟩ x0 y0 x1 y1).1) ^^
      ((evaluate_and_pair ⟨a0, b0, c0⟩ ⟨a1, b1, c1⟩ x0 y0 x1 y1).2)) =
      ((x0 ^^ x1) && (y0 ^^ y1)) :=
  evaluate_and_pair_xor ⟨a0, b0, c0⟩ ⟨a1, b1, c1⟩ x0 y0 x1 y1 h

/-- Witness for C2 at a concrete valid triple split and concrete shares. -/
theorem and_sharing_correct_witness :
    ((true ^^ false) = ((true ^^ false) && (false ^^ true))) ∧
    (((evaluate_and_pair ⟨true, false, true⟩ ⟨false, true, false⟩ true false true true).1) ^^
      ((evaluate_and_pair ⟨true, false, true⟩ ⟨false, true, false⟩ true false true true).2)) =
      ((true ^^ true) && (false ^^ true)) :=
  ⟨by decide, and_sharing_correct true true false true true false true false true false (by decide)⟩

/-- Claim C3 counterexample: at triple `(0,0,0)`, inputs `x = y = 1` and peer
message `(0,0)` (so the reconstructed `d = e = 1`), the first-party role
(`is_p1 = false`) does *not* compute the claimed `(d & b) ^ (e & a) ^ c`
formula — the code has it compute the variant with the extra `d & e` term. -/
theorem and_role_counterexample :
    evaluate_and false ⟨false, false, false⟩ true true (false, false) ≠
      and_formula_no_de ⟨false, false, false⟩ ((true ^^ false) ^^ false)
        ((true ^^ false) ^^ false) := by
  decide

/-- Claim C3 amended: the role mapping is the opposite of the claim's — the
second-party role (`is_p1 = true`) computes `(d & b_t) XOR (e & a_t) XOR c_t`
and the first-party role (`is_p1 = false`) additionally XORs `d & e`; exactly
one role adds the `d & e` term. -/
theorem and_role_formulas (t : MulTriple) (x y p q : Bool) :
    evaluate_and true t x y (p, q) =
      and_formula_no_de t ((x ^^ t.a) ^^ p) ((y ^^ t.b) ^^ q) ∧
    evaluate_and false t x y (p, q) =
      and_formula_with_de t ((x ^^ t.a) ^^ p) ((y ^^ t.b) ^^ q) := by
  obtain ⟨a, b, c⟩ := t
  revert a b c x y p q
  decide

/-- Claim C4: an INV gate is evaluated locally — the joint step writes both
output wires, consumes no triple and exchanges no message — and exactly one
role flips the bit: the `is_p1` engine (the "second party") writes the
negation, the other copies its share. -/
theorem inv_gate_local (ts : Nat → MulTriple × MulTriple) (st : ExecState) (a out : Nat)
    (v0 v1 : Bool)
    (h0 : get_wire_value st.w0 a = .ok v0) (h1 : get_wire_value st.w1 a = .ok v1)
    (ho0 : out < st.w0.length) (ho1 : out < st.w1.length) :
    gmw_step ts st ⟨.INV a, out⟩ =
      .ok ⟨st.w0.set out (some v0), st.w1.set out (some (!v1)), st.used, st.trace⟩ := by
  simp [gmw_step, h0, h1, set_wire, ho0, ho1, Bind.bind, Except.bind, pure, Except.pure]

/-- Witness for C4 on a one-wire state: the `is_p1` table flips its bit, the
other copies, the trace and triple counter are unchanged. -/
theorem inv_gate_local_witness :
    get_wire_value [some true] 0 = .ok true ∧
    gmw_step ts_zero ⟨[some true], [some false], 0, []⟩ ⟨.INV 0, 0⟩ =
      .ok ⟨[some true], [some true], 0, []⟩ :=
  ⟨rfl, inv_gate_local ts_zero ⟨[some true], [some false], 0, []⟩ 0 0 true false
    rfl rfl (by decide) (by decide)⟩

/-- A gateless circuit whose header declares two 1-wire input groups
(`niv = [1, 1]`), on exactly 128 wires. -/
def c5_circuit : Circuit := ⟨⟨0, 128, [1, 1], [0]⟩, []⟩

/-- Party 0's wire table after Phase A of the C5 counterexample run. -/
def w0_c5 : List (Option Bool) := (zeros64 ++ zeros64).map some

/-- Party 1's wire table after Phase A of the C5 counterexample run. -/
def w1_c5 : List (Option Bool) := (ones64 ++ zeros64).map some

set_option maxRecDepth 100000 in
/-- Claim C5 counterexample: running Phase A for a circuit whose header
declares `niv = [1, 1]`, the engines still populate fixed 64-wire blocks, so
wire 1 (the claim's second `niv`-sized block) holds the second party's share
bit 1 instead of the first party's share set — the claimed `niv`-sized block
layout is violated. -/
theorem input_block_counterexample :
    phase_a c5_circuit.header.wires_amount zeros64 ones64 zeros64 zeros64 =
      .ok (w0_c5, w1_c5, (Messages.Shares zeros64, Messages.Shares zeros64)) ∧
    ¬ block_assignment (c5_circuit.header.niv.getD 0 0) (c5_circuit.header.niv.getD 1 0)
      (List.zipWith (fun v m => Bool.xor v m) ones64 zeros64) zeros64 w1_c5 :=
  ⟨rfl, by decide⟩

/-- Claim C5 amended: each party's local share is `input XOR mask` and the
mask itself is sent as the `Shares` message; both engines populate the wire
table in the same fixed order — the leading **64**-wire block (the input
length, regardless of the header's `niv` entries) receives the share set of
the party with the `is_p1` role ("second party"), the following 64-wire block
the share set of the other party. -/
theorem input_block_assignment (x y m0 m1 : List Bool) (n : Nat)
    (hx : x.length = 64) (hy : y.length = 64) (hm0 : m0.length = 64) (hm1 : m1.length = 64)
    (hn : 128 ≤ n) :
    ∃ w0 w1, phase_a n x y m0 m1 =
        .ok (w0, w1, (Messages.Shares m0, Messages.Shares m1)) ∧
      block_assignment 64 64 (List.zipWith (fun v m => Bool.xor v m) y m1) m0 w1 ∧
      block_assignment 64 64 m1 (List.zipWith (fun v m => Bool.xor v m) x m0) w0 := by
  refine ⟨_, _, phase_a_char hx hy hm0 hm1 hn, ?_, ?_⟩
  · have hA : (List.zipWith (fun v m => Bool.xor v m) y m1).length = 64 := by
      simp [List.length_zipWith, hy, hm1]
    have hblk := block_assignment_append (List.zipWith (fun v m => Bool.xor v m) y m1) m0
      (List.replicate (n - 128) none)
    rw [hA, hm0] at hblk
    exact hblk
  · have hB : (List.zipWith (fun v m => Bool.xor v m) x m0).length = 64 := by
      simp [List.length_zipWith, hx, hm0]
    have hblk := block_assignment_append m1 (List.zipWith (fun v m => Bool.xor v m) x m0)
      (List.replicate (n - 128) none)
    rw [hB, hm1] at hblk
    exact hblk

/-- Witness for the amended C5 on concrete 64-bit inputs and masks. -/
theorem input_block_assignment_witness :
    zeros64.length = 64 ∧ (128 : Nat) ≤ 130 ∧
    (∃ w0 w1, phase_a 130 zeros64 ones64 zeros64 zeros64 =
        .ok (w0, w1, (Messages.Shares zeros64, Messages.Shares zeros64)) ∧
      block_assignment 64 64 (List.zipWith (fun v m => Bool.xor v m) ones64 zeros64) zeros64 w1 ∧
      block_assignment 64 64 zeros64 (List.zipWith (fun v m => Bool.xor v m) zeros64 zeros64) w0) :=
  ⟨rfl, by decide,
    input_block_assignment zeros64 ones64 zeros64 zeros64 130 rfl rfl rfl rfl (by decide)⟩

/-- Claim C6: `Circuit::parse` does *not* return a typed error on every
malformed input — a non-numeric token in the header line hits
`parse::<usize>().unwrap()` and panics. Concretely, parsing
`"1 x\n1 1\n1 1\n\n2 1 0 1 2 AND"` panics instead of producing a
`CircuitError`. -/
theorem parse_unwrap_panic :
    Circuit.parse "1 x\n1 1\n1 1\n\n2 1 0 1 2 AND" = .panic := by
  rfl

/-- Claim C7: `get_expected_line_length_header` reads only the *first byte*
of the line (`str::get(0..1)`), so a declared input-group count of 10 is
misread as 1: the niv line `"10 1 1 1 1 1 1 1 1 1 1"` (count 10 followed by
ten group sizes, which the claim says must parse) instead fails with
`ParsingNivError(1, 10)`. -/
theorem parse_count_first_byte :
    Circuit.parse "1 141\n10 1 1 1 1 1 1 1 1 1 1\n1 1\n\n2 1 0 1 9 AND" =
      .err (.ParsingNivError 1 10) := by
  rfl

set_option maxRecDepth 100000 in
/-- Claim C8 counterexample: on a gateless circuit whose single output wire
128 is never written, the execution fails with a *panic*
(`Option::unwrap` in the Phase C extraction), not with the typed
`WireNotSetError` naming the wire, contradicting the claim for output
extraction. -/
theorem output_unwrap_counterexample :
    gmw_execute no_gate_circuit x_one x_one zeros64 zeros64 ts_zero = .error .panic ∧
    ExecError.panic ≠ ExecError.wireNotSet 128 :=
  ⟨rfl, by decide⟩

/-- Claim C8 amended: a gate-input read of an in-bounds unset wire fails with
the typed wire-not-set error naming the wire index, but extracting the output
share vector over an unset tail wire *panics* (`Option::unwrap`) instead of
producing that typed error. -/
theorem wire_read_errors (w : List (Option Bool)) (i off : Nat)
    (h : w.get? i = some none) (hoff : off ≤ i) :
    get_wire_value w i = .error (.wireNotSet i) ∧
    extract_output w off = .error .panic := by
  have h2 : w[i]? = some none := by rw [← List.get?_eq_getElem?]; exact h
  refine ⟨by simp [get_wire_value, h2], ?_⟩
  show unwrap_all (w.drop off) = .error .panic
  apply unwrap_all_panic
  have hmem : (w.drop off).get? (i - off) = some none := by
    rw [List.get?_eq_getElem?, List.getElem?_drop,
      show off + (i - off) = i from by omega, ← List.get?_eq_getElem?]
    exact h
  exact List.get?_mem hmem

/-- Witness for the amended C8 on a two-wire table with wire 1 unset. -/
theorem wire_read_errors_witness :
    ([some true, none].get? 1 = some none) ∧ (0 : Nat) ≤ 1 ∧
    (get_wire_value [some true, none] 1 = .error (.wireNotSet 1) ∧
      extract_output [some true, none] 0 = .error .panic) :=
  ⟨rfl, by decide, wire_read_errors [some true, none] 1 0 rfl (by decide)⟩

/-- Claim C9: each party's local output share vector is exactly the
contiguous tail of its wire table from `wires_amount - sum(nov)`, the
returned vector is the elementwise XOR of the own and the peer's share
vectors, and the two parties' returned vectors are equal. -/
theorem phase_c_reconciliation (c : Circuit) (w0 w1 : List (Option Bool)) (s0 s1 : List Bool)
    (h0 : extract_output w0 c.get_output_wires = .ok s0)
    (h1 : extract_output w1 c.get_output_wires = .ok s1) :
    w0.drop (c.header.wires_amount - c.header.nov.sum) = s0.map some ∧
    w1.drop (c.header.wires_amount - c.header.nov.sum) = s1.map some ∧
    reconcile s0 s1 = reconcile s1 s0 := by
  refine ⟨unwrap_all_ok.mp h0, unwrap_all_ok.mp h1, ?_⟩
  simp only [reconcile]
  exact List.zipWith_comm_of_comm _ Bool.xor_comm s0 s1

set_option maxRecDepth 100000 in
/-- Witness for C9 on concrete 129-wire tables whose output tails hold one
share each. -/
theorem phase_c_reconciliation_witness :
    (extract_output (List.replicate 128 (some false) ++ [some true])
        and_circuit.get_output_wires = .ok [true]) ∧
    ((List.replicate 128 (some false) ++ [some true]).drop
        (and_circuit.header.wires_amount - and_circuit.header.nov.sum) = [true].map some ∧
      (List.replicate 128 (some false) ++ [some false]).drop
        (and_circuit.header.wires_amount - and_circuit.header.nov.sum) = [false].map some ∧
      reconcile [true] [false] = reconcile [false] [true]) :=
  ⟨rfl, phase_c_reconciliation and_circuit
    (List.replicate 128 (some false) ++ [some true])
    (List.replicate 128 (some false) ++ [some false]) [true] [false] rfl rfl⟩

/-- Claim C10: Phase A always writes exactly 128 input-share wires — two
64-entry blocks whose sizes come from the input arrays, ignoring the header's
`niv` groups. With fewer than 128 wires the wire-table write is out of bounds
and the whole execution panics; with at least 128 wires Phase A succeeds and
exactly the first 128 wires are set. -/
theorem input_sharing_bounds (c : Circuit) (x y m0 m1 : List Bool)
    (ts : Nat → MulTriple × MulTriple)
    (hx : x.length = 64) (hy : y.length = 64) (hm0 : m0.length = 64) (hm1 : m1.length = 64) :
    ((generate_shares y m1).2 ++ (generate_shares x m0).1).length = 128 ∧
    ((generate_shares y m1).1 ++ (generate_shares x m0).2).length = 128 ∧
    (c.header.wires_amount < 128 → gmw_execute c x y m0 m1 ts = .error .panic) ∧
    (128 ≤ c.header.wires_amount →
      ∃ w0 w1 ms, phase_a c.header.wires_amount x y m0 m1 = .ok (w0, w1, ms) ∧
        (∀ i, (w0.getD i none).isSome ↔ i < 128) ∧
        (∀ i, (w1.getD i none).isSome ↔ i < 128)) := by
  have hlen0 : ((generate_shares y m1).2 ++ (generate_shares x m0).1).length = 128 := by
    simp [generate_shares, List.length_zipWith, hx, hm0, hm1]
  have hlen1 : ((generate_shares y m1).1 ++ (generate_shares x m0).2).length = 128 := by
    simp [generate_shares, List.length_zipWith, hy, hm1, hm0]
  refine ⟨hlen0, hlen1, ?_, ?_⟩
  · intro hn
    have hfail : write_shares (List.replicate c.header.wires_amount (none : Option Bool)) 0
        ((generate_shares y m1).2 ++ (generate_shares x m0).1) = .error .panic := by
      apply write_shares_panic
      · intro hnil
        rw [hnil] at hlen0
        simp at hlen0
      · rw [hlen0]
        simp only [List.length_replicate]
        omega
    simp only [gmw_execute, phase_a, Bind.bind, Except.bind]
    rw [hfail]
  · intro hn
    refine ⟨_, _, _, phase_a_char hx hy hm0 hm1 hn, ?_, ?_⟩
    · intro i
      have hs := getD_shares_isSome (m1 ++ List.zipWith (fun v m => Bool.xor v m) x m0)
        (c.header.wires_amount - 128) i
      rw [show (m1 ++ List.zipWith (fun v m => Bool.xor v m) x m0).length = 128 from by
        simp [List.length_zipWith, hx, hm0, hm1]] at hs
      exact hs
    · intro i
      have hs := getD_shares_isSome (List.zipWith (fun v m => Bool.xor v m) y m1 ++ m0)
        (c.header.wires_amount - 128) i
      rw [show (List.zipWith (fun v m => Bool.xor v m) y m1 ++ m0).length = 128 from by
        simp [List.length_zipWith, hy, hm1, hm0]] at hs
      exact hs

/-- Witness for C10 at the single-AND circuit (129 wires ≥ 128). -/
theorem input_sharing_bounds_witness :
    x_one.length = 64 ∧ zeros64.length = 64 ∧
    (128 ≤ and_circuit.header.wires_amount →
      ∃ w0 w1 ms, phase_a and_circuit.header.wires_amount x_one x_one zeros64 zeros64 =
          .ok (w0, w1, ms) ∧
        (∀ i, (w0.getD i none).isSome ↔ i < 128) ∧
        (∀ i, (w1.getD i none).isSome ↔ i < 128)) :=
  ⟨rfl, rfl,
    (input_sharing_bounds and_circuit x_one x_one zeros64 zeros64 ts_zero
      rfl rfl rfl rfl).2.2.2⟩

set_option maxRecDepth 400000 in
/-- Witness for C1 at the single-AND circuit with inputs `x = y = 1`,
concrete masks and a valid triple stream: the protocol run completes with
output `[true]` on both sides, matching the plaintext AND. -/
theorem gmw_roundtrip_witness :
    x_one.length = 64 ∧ (∀ k, triple_valid (ts_mixed k)) ∧
    gmw_execute and_circuit x_one x_one zeros64 ones64 ts_mixed = .ok ([true], [true]) ∧
    (plain_execute and_circuit x_one x_one = .ok ([true], [true]).1 ∧
      (([true], [true]).1 : List Bool) = ([true], [true]).2) :=
  ⟨rfl,
    fun _ => show triple_valid (⟨true, false, true⟩, ⟨false, true, false⟩) from by decide,
    rfl,
    gmw_roundtrip and_circuit x_one x_one zeros64 ones64 ts_mixed rfl rfl rfl rfl
      (fun _ => show triple_valid (⟨true, false, true⟩, ⟨false, true, false⟩) from by decide)
      ([true], [true]) rfl⟩
